import Mathlib

/-!
Verification of the matbench-discovery helper scripts against their
natural-language specification.  Each Python source file is shallowly
embedded: pure computations become Lean functions over rationals, library
calls (numpy RNG draws, spglib, pymatgen structure matching, the Figshare
API, the filesystem) become explicit parameters, and Python exceptions
become Except values.  Machine floats are modelled by rationals, pandas
NaN/None cells by Option values.
-/

set_option autoImplicit false

namespace Perturb

/-! Embedding of src/matbench_discovery/structure.py, perturb_structure. -/

/-- A 3-vector of rationals (cartesian or fractional coordinates). -/
structure Vec3 where
  x : ℚ
  y : ℚ
  z : ℚ
deriving DecidableEq, Repr

def Vec3.add (a b : Vec3) : Vec3 := ⟨a.x + b.x, a.y + b.y, a.z + b.z⟩

def Vec3.sub (a b : Vec3) : Vec3 := ⟨a.x - b.x, a.y - b.y, a.z - b.z⟩

def Vec3.smul (c : ℚ) (v : Vec3) : Vec3 := ⟨c * v.x, c * v.y, c * v.z⟩

/-- Squared euclidean norm of a displacement vector. -/
def Vec3.sqNorm (v : Vec3) : ℚ := v.x * v.x + v.y * v.y + v.z * v.z

/-- A 3x3 matrix given by its rows, as numpy stores lattice.matrix. -/
structure Mat3 where
  r0 : Vec3
  r1 : Vec3
  r2 : Vec3
deriving DecidableEq, Repr

/-- Row-vector times matrix, matching the pymatgen convention
cartesian = fractional @ lattice.matrix. -/
def rowMul (v : Vec3) (m : Mat3) : Vec3 :=
  (Vec3.smul v.x m.r0).add ((Vec3.smul v.y m.r1).add (Vec3.smul v.z m.r2))

/-- A pymatgen periodic site: a species label and cartesian coordinates. -/
structure Site where
  species : String
  coords : Vec3
deriving DecidableEq, Repr

/-- A pymatgen Structure: the lattice matrix, its inverse (pymatgen keeps
both, the inverse converts cartesian to fractional coordinates), and the
sites. -/
structure PmgStructure where
  lattice : Mat3
  latticeInv : Mat3
  sites : List Site
deriving DecidableEq, Repr

/-- Fractional part q - floor q, how numpy's mod 1 acts on each
fractional coordinate. -/
def fract (q : ℚ) : ℚ := q - ⌊q⌋

/-- PeriodicSite.to_unit_cell: convert to fractional coordinates, wrap
each into the half-open interval from 0 to 1, convert back. -/
def toUnitCell (lat latInv : Mat3) (c : Vec3) : Vec3 :=
  let frac := rowMul c latInv
  rowMul ⟨fract frac.x, fract frac.y, fract frac.z⟩ lat

/-- One iteration of the site loop in perturb_structure.  The RNG draw is
the pair (magnitude, normalDraw): magnitude = rng.weibull(gamma), and
normalDraw = rng.normal(3), which in numpy is a SINGLE scalar drawn from a
normal distribution with mean 3 (the argument is the loc parameter, not a
size).  np.linalg.norm of that scalar is its absolute value, so
vec = normalDraw / |normalDraw|, a scalar, and the broadcast
site.coords += vec * magnitude adds the same scalar to every cartesian
component. -/
def perturbSite (lat latInv : Mat3) (draw : ℚ × ℚ) (s : Site) : Site :=
  let magnitude := draw.1
  let vec := draw.2 / |draw.2|
  let c := s.coords.add ⟨vec * magnitude, vec * magnitude, vec * magnitude⟩
  { s with coords := toUnitCell lat latInv c }

/-- Structure.copy(): a deep copy, value-equal to the original but a fresh
object; every later mutation acts on the copy only. -/
def structCopy (s : PmgStructure) : PmgStructure :=
  { lattice := s.lattice, latticeInv := s.latticeInv, sites := s.sites }

/-- The two local bindings of perturb_structure: the caller's struct
argument and the freshly copied structure the loop mutates. -/
structure PerturbState where
  struct : PmgStructure
  perturbed : PmgStructure

/-- perturb_structure with the RNG draw stream made explicit: site i
consumes draws i = (weibull magnitude, normal scalar).  All writes of the
loop target the copy; the struct binding is only read. -/
def perturb_structure_run (draws : ℕ → ℚ × ℚ) (struct : PmgStructure) :
    PerturbState :=
  let perturbed := structCopy struct
  { struct := struct
    perturbed :=
      { perturbed with
        sites := perturbed.sites.mapIdx fun i s =>
          perturbSite perturbed.lattice perturbed.latticeInv (draws i) s } }

/-- The value perturb_structure returns. -/
def perturb_structure (draws : ℕ → ℚ × ℚ) (struct : PmgStructure) :
    PmgStructure :=
  (perturb_structure_run draws struct).perturbed

/-- A cubic lattice of edge 10 with a single site at the origin. -/
def demoStruct : PmgStructure :=
  { lattice := ⟨⟨10, 0, 0⟩, ⟨0, 10, 0⟩, ⟨0, 0, 10⟩⟩
    latticeInv := ⟨⟨1/10, 0, 0⟩, ⟨0, 1/10, 0⟩, ⟨0, 0, 1/10⟩⟩
    sites := [⟨"Na", ⟨0, 0, 0⟩⟩] }

end Perturb

namespace SymAnalysis

/-! Embedding of src/matbench_discovery/structure.py, analyze_symmetry and
pred_vs_ref_struct_symmetry.  The structure type is a type variable and
the spglib and pymatgen library calls are explicit function parameters. -/

/-- The fields of the spglib symmetry dataset that analyze_symmetry
reads.  rotations and translations are kept as lists because only their
lengths are used. -/
structure SpglibDataset where
  number : ℤ
  hall_number : ℤ
  international : String
  hall : String
  choice : String
  pointgroup : String
  wyckoffs : List String
  rotations : List (List (List ℤ))
  translations : List (List ℚ)

/-- One row of the DataFrame built by analyze_symmetry: the spglib fields
renamed through sym_key_map, the three symmetry-operation counts, and the
tolerances used. -/
structure SymRow where
  spg_num : ℤ
  hall_num : ℤ
  international_spg_name : String
  hall_symbol : String
  choice_symbol : String
  point_group : String
  wyckoff_symbols : List String
  n_sym_ops : ℕ
  n_rot_syms : ℕ
  n_trans_syms : ℕ
  symprec : ℚ
  angle_tolerance : ℚ

/-- The dictionary comprehension over sym_key_map merged with the
operation counts and the two tolerance values. -/
def mkSymRow (d : SpglibDataset) (symprec angle_tolerance : ℚ) : SymRow :=
  { spg_num := d.number
    hall_num := d.hall_number
    international_spg_name := d.international
    hall_symbol := d.hall
    choice_symbol := d.choice
    point_group := d.pointgroup
    wyckoff_symbols := d.wyckoffs
    n_sym_ops := d.rotations.length
    n_rot_syms := d.rotations.length
    n_trans_syms := d.translations.length
    symprec := symprec
    angle_tolerance := angle_tolerance }

/-- The DataFrame analyze_symmetry returns: one row per material, the
index name set to the material-id key. -/
structure SymDF where
  indexName : String
  rows : List (String × SymRow)

/-- Placeholder dataset for Option.getD in proofs; never reached when
spglib succeeds on every structure. -/
def emptyDataset : SpglibDataset :=
  { number := 0, hall_number := 0, international := "", hall := ""
    choice := "", pointgroup := "", wyckoffs := [], rotations := []
    translations := [] }

/-- A concrete spglib dataset (rock-salt-like values) used to instantiate
theorems with hypotheses on a concrete input. -/
def demoDataset : SpglibDataset :=
  { number := 225, hall_number := 523, international := "Fm-3m"
    hall := "-F 4 2 3", choice := "", pointgroup := "m-3m"
    wyckoffs := ["a"], rotations := [[[1, 0, 0], [0, 1, 0], [0, 0, 1]]]
    translations := [[0, 0, 0]] }

/-- The loop of analyze_symmetry.  gsd is spglib.get_symmetry_dataset
applied to the cell of a structure together with symprec and
angle_tolerance; reprStruct is how Python prints a structure into the
error message.  The loop raises ValueError at the first structure for
which spglib returns None. -/
def analyzeRows {α : Type} (gsd : α → ℚ → ℚ → Option SpglibDataset)
    (reprStruct : α → String) (symprec angle_tolerance : ℚ) :
    List (String × α) → Except String (List (String × SymRow))
  | [] => .ok []
  | (structKey, stru) :: rest =>
    match gsd stru symprec angle_tolerance with
    | none =>
      .error ("spglib returned None for " ++ structKey ++ "\n"
        ++ reprStruct stru)
    | some d =>
      (analyzeRows gsd reprStruct symprec angle_tolerance rest).map
        (fun rs => (structKey, mkSymRow d symprec angle_tolerance) :: rs)

/-- analyze_symmetry: run the loop; on success assemble the transposed
DataFrame whose index (named material_id) lists the input keys in order. -/
def analyze_symmetry {α : Type} (gsd : α → ℚ → ℚ → Option SpglibDataset)
    (reprStruct : α → String) (structures : List (String × α))
    (symprec angle_tolerance : ℚ) : Except String SymDF :=
  (analyzeRows gsd reprStruct symprec angle_tolerance structures).map
    (fun rs => { indexName := "material_id", rows := rs })

/-! A small model of a pandas DataFrame with Option-valued cells (none is
NaN or None) for pred_vs_ref_struct_symmetry, which reads and writes
individual columns of the DataFrames produced by analyze_symmetry. -/

/-- A pandas DataFrame: row index, column list, and the cells. -/
structure DFrame where
  index : List String
  cols : List String
  data : String → String → Option ℚ

/-- Reading df[col][id]: none when the column or row is absent. -/
def getCell (df : DFrame) (col id : String) : Option ℚ :=
  if col ∈ df.cols ∧ id ∈ df.index then df.data col id else none

/-- df[col] = series: the column is created at the end if absent, and the
assigned series is aligned to the existing row index. -/
def setCol (df : DFrame) (col : String) (f : String → Option ℚ) : DFrame :=
  { index := df.index
    cols := if col ∈ df.cols then df.cols else df.cols ++ [col]
    data := fun c i =>
      if c = col then (if i ∈ df.index then f i else none) else df.data c i }

/-- df.loc[id, col] = v: sets one cell, enlarging the index and the
columns when the row or column does not exist yet. -/
def locSet (df : DFrame) (id col : String) (v : Option ℚ) : DFrame :=
  { index := if id ∈ df.index then df.index else df.index ++ [id]
    cols := if col ∈ df.cols then df.cols else df.cols ++ [col]
    data := fun c i => if c = col ∧ i = id then v else df.data c i }

/-- NaN-propagating binary arithmetic on aligned series cells. -/
def omap2 (f : ℚ → ℚ → ℚ) : Option ℚ → Option ℚ → Option ℚ
  | some a, some b => some (f a b)
  | _, _ => none

/-- Column-name strings.  Their concrete values live in the enums module
of the repository (pymatviz Key and MbdKey), which is not part of the
five source files; the claims only depend on the names being fixed and
pairwise distinct, which holds for the real enum values. -/
def spgNumKey : String := "spg_num"

def nSymOpsKey : String := "n_sym_ops"

def spgNumDiffKey : String := "spg_num_diff"

def nSymOpsDiffKey : String := "n_sym_ops_diff"

def rmsdKey : String := "structure_rmsd_vs_dft"

def maxPairDistKey : String := "max_pair_dist"

/-- Python dict lookup pred_structs[mat_id] on a key list with distinct
keys. -/
def lookupStruct {σ : Type} (d : List (String × σ)) (k : String) :
    Option σ :=
  (d.find? (fun p => p.1 = k)).map Prod.snd

/-- set(pred_structs) & set(ref_structs): the material ids present in
both structure dictionaries (dict keys are unique, so no dedup needed). -/
def sharedIds {σ : Type} (predS refS : List (String × σ)) : List String :=
  (predS.map Prod.fst).filter (fun k => k ∈ refS.map Prod.fst)

/-- The value structure_matcher.get_rms_dist produces for a shared id:
look both structures up and match them (none models the matcher finding
no match, turned into the pair (None, None) by the `or` fallback). -/
def rmsVal {σ : Type} (rms : σ → σ → Option (ℚ × ℚ))
    (predS refS : List (String × σ)) (matId : String) : Option (ℚ × ℚ) :=
  match lookupStruct predS matId, lookupStruct refS matId with
  | some a, some b => rms a b
  | _, _ => none

/-- One iteration of the RMSD loop: write the two cells with .loc. -/
def rmsdLoopStep {σ : Type} (rms : σ → σ → Option (ℚ × ℚ))
    (predS refS : List (String × σ)) (df : DFrame) (matId : String) :
    DFrame :=
  locSet (locSet df matId rmsdKey ((rmsVal rms predS refS matId).map Prod.fst))
    matId maxPairDistKey ((rmsVal rms predS refS matId).map Prod.snd)

/-- df_result just before the RMSD loop: a copy of df_sym_pred extended
with the two difference columns (predicted minus reference, aligned on
the row index) and the RMSD column initialized to None. -/
def dfBeforeLoop (dfPred dfRef : DFrame) : DFrame :=
  setCol (setCol (setCol dfPred spgNumDiffKey
    (fun i => omap2 (fun a b => a - b)
      (getCell dfPred spgNumKey i) (getCell dfRef spgNumKey i)))
    nSymOpsDiffKey
    (fun i => omap2 (fun a b => a - b)
      (getCell dfPred nSymOpsKey i) (getCell dfRef nSymOpsKey i)))
    rmsdKey (fun _ => none)

/-- pred_vs_ref_struct_symmetry with the caller's df_sym_pred binding
threaded through: the first component is df_sym_pred after the call (the
function copies it and writes only to the copy), the second is the
returned df_result. -/
def pred_vs_ref_run {σ : Type} (rms : σ → σ → Option (ℚ × ℚ))
    (dfPred dfRef : DFrame) (predS refS : List (String × σ)) :
    DFrame × DFrame :=
  (dfPred, (sharedIds predS refS).foldl (rmsdLoopStep rms predS refS)
    (dfBeforeLoop dfPred dfRef))

/-- The DataFrame pred_vs_ref_struct_symmetry returns. -/
def pred_vs_ref_struct_symmetry {σ : Type} (rms : σ → σ → Option (ℚ × ℚ))
    (dfPred dfRef : DFrame) (predS refS : List (String × σ)) : DFrame :=
  (pred_vs_ref_run rms dfPred dfRef predS refS).2

/-- A one-row symmetry DataFrame for the predicted structures, used to
instantiate theorems on a concrete input. -/
def demoDfPred : DFrame :=
  { index := ["wbm-1"], cols := [spgNumKey, nSymOpsKey]
    data := fun c i =>
      if c = spgNumKey ∧ i = "wbm-1" then some 225
      else if c = nSymOpsKey ∧ i = "wbm-1" then some 48 else none }

/-- The matching one-row reference symmetry DataFrame. -/
def demoDfRef : DFrame :=
  { index := ["wbm-1"], cols := [spgNumKey, nSymOpsKey]
    data := fun c i =>
      if c = spgNumKey ∧ i = "wbm-1" then some 194
      else if c = nSymOpsKey ∧ i = "wbm-1" then some 24 else none }

/-- A concrete structure matcher that always matches. -/
def demoRms : ℕ → ℕ → Option (ℚ × ℚ) := fun _ _ => some (1/100, 3/10)

end SymAnalysis

namespace PlotFuncs

/-! Embedding of src/ml_stability/plots/plot_funcs.py,
hist_classify_stable_as_func_of_hull_dist.  A pandas Series is a list of
Option-valued cells (none is NaN); series arithmetic propagates NaN and
every comparison with NaN is false, as in numpy. -/

/-- NaN-propagating cell arithmetic. -/
def cellAdd : Option ℚ → Option ℚ → Option ℚ
  | some a, some b => some (a + b)
  | _, _ => none

/-- NaN-propagating cell subtraction. -/
def cellSub : Option ℚ → Option ℚ → Option ℚ
  | some a, some b => some (a - b)
  | _, _ => none

/-- series <= threshold: false on NaN. -/
def cellLe (c : Option ℚ) (t : ℚ) : Bool :=
  match c with
  | some x => x ≤ t
  | none => false

/-- series > threshold: false on NaN. -/
def cellGt (c : Option ℚ) (t : ℚ) : Bool :=
  match c with
  | some x => t < x
  | none => false

/-- The criterion argument ("energy", "std" or "neg"). -/
inductive Criterion
  | energy
  | std
  | neg

/-- The series the model is tested on: error = preds - targets,
mean = error + e_above_hull, then shifted by the uncertainty series when
one is given and the criterion asks for it. -/
def testSeries (targets preds eAboveHull : List (Option ℚ))
    (stdVals : Option (List (Option ℚ))) (criterion : Criterion) :
    List (Option ℚ) :=
  let error := List.zipWith cellSub preds targets
  let mean := List.zipWith cellAdd error eAboveHull
  match stdVals, criterion with
  | some std, .std => List.zipWith cellAdd mean std
  | some std, .neg => List.zipWith cellSub mean std
  | _, _ => mean

/-- stability_thresh = (0, 0.1)[0]. -/
def stabilityThresh : ℚ := 0

/-- The four classification counts (true positives, false negatives,
false positives, true negatives): actual stability from e_above_hull,
predicted stability from the test series, both compared against the
stability threshold. -/
def classCounts (targets preds eAboveHull : List (Option ℚ))
    (stdVals : Option (List (Option ℚ))) (criterion : Criterion) :
    ℕ × ℕ × ℕ × ℕ :=
  let test := testSeries targets preds eAboveHull stdVals criterion
  let pairs := eAboveHull.zip test
  ((pairs.filter fun p => cellLe p.1 stabilityThresh
      && cellLe p.2 stabilityThresh).length,
   (pairs.filter fun p => cellLe p.1 stabilityThresh
      && cellGt p.2 stabilityThresh).length,
   (pairs.filter fun p => cellGt p.1 stabilityThresh
      && cellLe p.2 stabilityThresh).length,
   (pairs.filter fun p => cellGt p.1 stabilityThresh
      && cellGt p.2 stabilityThresh).length)

end PlotFuncs

namespace Bowsr

/-! Embedding of src/models/bowsr/slurm_array_bowsr_wbm.py: the
np.array_split chunking of the WBM dataframe across the Slurm job array,
and the early exit when the output file of this array task exists. -/

/-- Chunk size of np.array_split(arr, k)[i] for an array of n rows: the
first n mod k chunks get an extra row on top of n / k. -/
def chunkSize (n k i : ℕ) : ℕ :=
  n / k + if i < n % k then 1 else 0

/-- First row index of chunk i of np.array_split(arr, k). -/
def chunkStart (n k i : ℕ) : ℕ :=
  i * (n / k) + min i (n % k)

/-- Row indices of df_this_job = np.array_split(df_wbm,
job_array_size + 1)[job_array_id] for a dataframe of n rows, with count =
SLURM_ARRAY_TASK_COUNT and t = SLURM_ARRAY_TASK_ID. -/
def taskChunk (n count t : ℕ) : Finset ℕ :=
  Finset.Ico (chunkStart n (count + 1) t)
    (chunkStart n (count + 1) t + chunkSize n (count + 1) t)

/-- The tasks of a job array submitted with --array 1-count that process
a given row. -/
def processedBy (n count row : ℕ) : Finset ℕ :=
  (Finset.Icc 1 count).filter fun t => row ∈ taskChunk n count t

/-- The externally visible actions of the script, in program order. -/
inductive Effect
  | makeOutDir
  | wandbInit
  | loadData
  | relax (materialId : String)
  | writeJson
deriving DecidableEq

/-- What the script can observe and act on. -/
structure ScriptEnv where
  outFileExists : Bool
  materialIds : List String

/-- The top-level statement sequence of the script: create the output
directory, check whether the json output path of this array task already
exists, and either raise SystemExit right there, or initialize wandb,
load the dataset, relax each structure of this task's chunk and write the
json output.  Returns the emitted effects and whether SystemExit was
raised. -/
def bowsrScript (env : ScriptEnv) : List Effect × Bool :=
  if env.outFileExists then
    ([Effect.makeOutDir], true)
  else
    ([Effect.makeOutDir, Effect.wandbInit, Effect.loadData]
      ++ env.materialIds.map Effect.relax ++ [Effect.writeJson], false)

end Bowsr

namespace Figshare

/-! Embedding of src/scripts/upload_data_files_to_figshare.py, the
per-file loop of main.  The Figshare API, the filesystem and the hash
computation are explicit parameters. -/

/-- A file already present in the Figshare article, as returned by
list_article_files. -/
structure RemoteFile where
  name : String
  fid : ℕ
  computed_md5 : String

/-- A member of the DataFiles enum: its name and its path relative to the
data directory. -/
structure DataFile where
  name : String
  rel_path : String
deriving DecidableEq

/-- One YAML entry of the data files registry. -/
structure FileData where
  path : Option String
  description : Option String
  md5 : Option String
  url : Option String
deriving DecidableEq

/-- Everything the loop consumes from the outside world. -/
structure Env where
  dataDir : String
  isLocalFile : String → Bool
  localMd5 : String → String
  remoteFiles : List RemoteFile
  existingData : List (String × FileData)
  uploadedId : String → ℕ

/-- The Figshare download url of a file id (DOWNLOAD_URL_PREFIX in the
figshare module of the repository). -/
def downloadUrlBase : String := "https://figshare.com/ndownloader/files"

/-- os.path.basename: the segment after the last path separator.
Implemented on the character list so that it evaluates by kernel
reduction. -/
def basename (p : String) : String :=
  String.mk ((p.data.splitOn '/').getLastD [])

/-- The files_by_name dict comprehension: on duplicate names the last
remote file wins. -/
def filesByName (remote : List RemoteFile) (n : String) :
    Option RemoteFile :=
  remote.reverse.find? fun f => f.name = n

/-- Assoc-list lookup for dicts keyed by strings. -/
def alistGet {β : Type} : List (String × β) → String → Option β
  | [], _ => none
  | p :: rest, k => if p.1 = k then some p.2 else alistGet rest k

/-- dict[key] = value on an assoc list: overwrite the entry in place when
the key exists (keys are unique in a dict), append otherwise. -/
def alistSet {β : Type} : List (String × β) → String → β →
    List (String × β)
  | [], k, v => [(k, v)]
  | p :: rest, k, v =>
    if p.1 = k then (k, v) :: rest else p :: alistSet rest k v

/-- The mutable bindings of the loop, plus a log of the paths passed to
figshare.upload_file. -/
structure LoopState where
  files_in_article : List (String × FileData)
  newly_uploaded : List (String × String)
  uploads : List String

/-- The local path of a data file: DATA_DIR joined with its relative
path. -/
def filePathOf (env : Env) (df : DataFile) : String :=
  env.dataDir ++ "/" ++ df.rel_path

/-- The MD5 the script compares against Figshare: the hash stored in the
YAML entry when present, otherwise the hash computed from the local
file. -/
def fileHash (env : Env) (df : DataFile) : String :=
  match alistGet env.existingData df.name with
  | some fd =>
    match fd.md5 with
    | some h => h
    | none => env.localMd5 (filePathOf env df)
  | none => env.localMd5 (filePathOf env df)

/-- The YAML entry of a data file (the existing one, or a fresh one with
default path and description) after its md5 field is filled in. -/
def entryWithHash (env : Env) (df : DataFile) : FileData :=
  let fd := match alistGet env.existingData df.name with
    | some fd => fd
    | none =>
      { path := some df.rel_path, description := some "Description needed"
        md5 := none, url := none }
  { fd with md5 := some (fileHash env df) }

/-- The registry entry recorded for a data file whose article copy
matches (or that was just uploaded under a fresh id): its entry with the
download url of the given file id filled in. -/
def entryWithUrl (env : Env) (df : DataFile) (fid : ℕ) : FileData :=
  { entryWithHash env df with
    url := some (downloadUrlBase ++ "/" ++ toString fid) }

/-- The shared tail of both upload branches: upload the file, record its
new download url, and log it as newly uploaded. -/
def uploadBranch (env : Env) (st : LoopState) (df : DataFile)
    (filePath : String) (fd : FileData) : LoopState :=
  let fid := env.uploadedId filePath
  let fileUrl := downloadUrlBase ++ "/" ++ toString fid
  { files_in_article :=
      alistSet st.files_in_article df.name { fd with url := some fileUrl }
    newly_uploaded := st.newly_uploaded ++ [(df.name, fileUrl)]
    uploads := st.uploads ++ [filePath] }

/-- One iteration of the loop over DataFiles: skip files missing locally;
reuse the YAML entry or create one with defaults; fill in the MD5; when a
remote file of the same basename has the same MD5, record its download
url without uploading; otherwise upload. -/
def processDataFile (env : Env) (st : LoopState) (df : DataFile) :
    LoopState :=
  let filePath := filePathOf env df
  if env.isLocalFile filePath then
    let fd := entryWithHash env df
    match filesByName env.remoteFiles (basename filePath) with
    | some existingFile =>
      if fileHash env df = existingFile.computed_md5 then
        let fileUrl := downloadUrlBase ++ "/" ++ toString existingFile.fid
        let fd : FileData := { fd with url := some fileUrl }
        { st with files_in_article :=
            alistSet st.files_in_article df.name fd }
      else uploadBranch env st df filePath fd
    | none => uploadBranch env st df filePath fd
  else st

/-- Whether the loop uploads a given data file: it exists locally, and it
is absent from the article or its MD5 differs from the hash stored on
Figshare. -/
def willUpload (env : Env) (df : DataFile) : Bool :=
  env.isLocalFile (filePathOf env df) &&
    match filesByName env.remoteFiles (basename (filePathOf env df)) with
    | some ef => fileHash env df != ef.computed_md5
    | none => true

/-- A concrete environment whose single remote file carries the same MD5
as the local copy. -/
def demoEnv : Env :=
  { dataDir := "data"
    isLocalFile := fun _ => true
    localMd5 := fun _ => "abc123"
    remoteFiles := [{ name := "f1.json", fid := 11, computed_md5 := "abc123" }]
    existingData := []
    uploadedId := fun _ => 99 }

/-- A single-element DataFiles enum for the concrete environment. -/
def demoDataFiles : List DataFile := [{ name := "wbm_summary", rel_path := "f1.json" }]

/-- The whole loop of main: start from a copy of the YAML data and fold
over the DataFiles enum. -/
def uploadAll (env : Env) (dataFiles : List DataFile) : LoopState :=
  dataFiles.foldl (processDataFile env)
    { files_in_article := env.existingData, newly_uploaded := [],
      uploads := [] }

end Figshare

/-! Theorems. -/

namespace Perturb

/-- C7: perturb_structure never modifies the structure it is given: the
caller's binding is unchanged after the call, every input site keeps its
coordinates, and the returned structure is the mutated copy, not the
input. -/
theorem perturb_structure_input_preserved (draws : ℕ → ℚ × ℚ)
    (struct : PmgStructure) :
    (perturb_structure_run draws struct).struct = struct ∧
    (perturb_structure_run draws struct).struct.sites.map Site.coords
      = struct.sites.map Site.coords ∧
    perturb_structure draws struct
      = (perturb_structure_run draws struct).perturbed :=
  ⟨rfl, rfl, rfl⟩

/-- C1: the code does not displace sites along a random unit direction by
the Weibull-drawn distance.  rng.normal(3) is a scalar draw (3 is the loc
parameter), so vec is the scalar plus-or-minus 1 and the broadcast adds
the same signed magnitude to all three cartesian components.  On a
single site at the origin of a cubic cell of edge 10, a Weibull draw of 1
and a normal draw of 5 move the site to (1, 1, 1): the displacement has
squared length 3, not the squared Weibull magnitude 1, and the direction
is independent of the normal draw (a draw of 7 gives the same result). -/
theorem perturb_structure_displacement_bug :
    perturb_structure (fun _ => (1, 5)) demoStruct
      = { demoStruct with sites := [⟨"Na", ⟨1, 1, 1⟩⟩] } ∧
    Vec3.sqNorm (Vec3.sub ⟨1, 1, 1⟩ ⟨0, 0, 0⟩) = 3 ∧
    ((3 : ℚ) ≠ 1 * 1) ∧
    perturb_structure (fun _ => (1, 7)) demoStruct
      = perturb_structure (fun _ => (1, 5)) demoStruct := by
  refine ⟨?_, by norm_num [Vec3.sqNorm, Vec3.sub], by norm_num, ?_⟩
  · simp [perturb_structure, perturb_structure_run, structCopy, perturbSite,
      toUnitCell, rowMul, fract, Vec3.add, Vec3.smul, demoStruct]
    norm_num
    rw [Int.fract_eq_self.2 (by norm_num)]
    norm_num
  · simp [perturb_structure, perturb_structure_run, structCopy, perturbSite,
      toUnitCell, rowMul, fract, Vec3.add, Vec3.smul, demoStruct]

end Perturb

namespace Bowsr

theorem chunkStart_succ (n k i : ℕ) :
    chunkStart n k (i + 1) = chunkStart n k i + chunkSize n k i := by
  unfold chunkStart chunkSize
  rw [Nat.succ_mul]
  rcases Nat.lt_or_ge i (n % k) with h | h
  · rw [if_pos h, Nat.min_eq_left (by omega), Nat.min_eq_left (by omega)]
    omega
  · rw [if_neg (by omega), Nat.min_eq_right (by omega),
      Nat.min_eq_right (by omega)]
    omega

theorem chunkStart_mono (n k : ℕ) {i j : ℕ} (h : i ≤ j) :
    chunkStart n k i ≤ chunkStart n k j := by
  unfold chunkStart
  have h1 := Nat.mul_le_mul_right (n / k) h
  have h2 := min_le_min h (le_refl (n % k))
  omega

theorem chunkStart_self (n k : ℕ) (hk : 0 < k) : chunkStart n k k = n := by
  unfold chunkStart
  have h1 : n % k < k := Nat.mod_lt n hk
  rw [Nat.min_eq_right (le_of_lt h1)]
  have h2 := Nat.div_add_mod n k
  omega

theorem exists_chunk (n k row : ℕ) (hk : 0 < k) (hrow : row < n) :
    ∃ i, i < k ∧ chunkStart n k i ≤ row ∧
      row < chunkStart n k i + chunkSize n k i := by
  have hP : ∃ j, row < chunkStart n k j :=
    ⟨k, by rw [chunkStart_self n k hk]; exact hrow⟩
  have hm : row < chunkStart n k (Nat.find hP) := Nat.find_spec hP
  have hmk : Nat.find hP ≤ k := Nat.find_le (by
    rw [chunkStart_self n k hk]; exact hrow)
  have hm0 : 0 < Nat.find hP := by
    rcases Nat.eq_zero_or_pos (Nat.find hP) with h0 | h0
    · rw [h0] at hm
      unfold chunkStart at hm
      omega
    · exact h0
  have hprev : ¬ row < chunkStart n k (Nat.find hP - 1) :=
    Nat.find_min hP (by omega)
  have hsucc : Nat.find hP - 1 + 1 = Nat.find hP := by omega
  refine ⟨Nat.find hP - 1, by omega, by omega, ?_⟩
  rw [← chunkStart_succ, hsucc]
  exact hm

theorem chunk_unique (n k : ℕ) {i j row : ℕ}
    (hi1 : chunkStart n k i ≤ row)
    (hi2 : row < chunkStart n k i + chunkSize n k i)
    (hj1 : chunkStart n k j ≤ row)
    (hj2 : row < chunkStart n k j + chunkSize n k j) : i = j := by
  by_contra hne
  rcases Nat.lt_or_ge i j with h | h
  · have hs := chunkStart_succ n k i
    have hle := chunkStart_mono n k (show i + 1 ≤ j from h)
    omega
  · have hlt : j < i := by omega
    have hs := chunkStart_succ n k j
    have hle := chunkStart_mono n k (show j + 1 ≤ i from hlt)
    omega

theorem mem_taskChunk {n count t row : ℕ} :
    row ∈ taskChunk n count t ↔
      chunkStart n (count + 1) t ≤ row ∧
      row < chunkStart n (count + 1) t + chunkSize n (count + 1) t := by
  unfold taskChunk
  exact Finset.mem_Ico

/-- C2 (amended): the script splits the dataframe into
SLURM_ARRAY_TASK_COUNT + 1 contiguous chunks and task t processes chunk
t.  Chunks of distinct tasks are pairwise disjoint, but the first chunk,
chunk 0, is processed by no task of a job array whose ids range over
1..SLURM_ARRAY_TASK_COUNT; every row outside chunk 0 is processed by
exactly one task. -/
theorem job_array_split_amended (n count : ℕ) :
    (∀ i j, i ≠ j → Disjoint (taskChunk n count i) (taskChunk n count j)) ∧
    (∀ row, row < n → row ∉ taskChunk n count 0 →
      (processedBy n count row).card = 1) ∧
    (∀ row, row ∈ taskChunk n count 0 → processedBy n count row = ∅) := by
  refine ⟨?_, ?_, ?_⟩
  · intro i j hne
    rw [Finset.disjoint_left]
    intro row hi hj
    rw [mem_taskChunk] at hi hj
    exact hne (chunk_unique n (count + 1) hi.1 hi.2 hj.1 hj.2)
  · intro row hrow hnot0
    obtain ⟨i, hik, hi1, hi2⟩ :=
      exists_chunk n (count + 1) row (by omega) hrow
    have hi0 : i ≠ 0 := by
      intro h0
      exact hnot0 (mem_taskChunk.2 ⟨h0 ▸ hi1, h0 ▸ hi2⟩)
    have : processedBy n count row = {i} := by
      apply Finset.ext
      intro t
      simp only [processedBy, Finset.mem_filter, Finset.mem_Icc,
        Finset.mem_singleton]
      constructor
      · rintro ⟨⟨h1, h2⟩, hmem⟩
        rw [mem_taskChunk] at hmem
        exact chunk_unique n (count + 1) hmem.1 hmem.2 hi1 hi2
      · rintro rfl
        exact ⟨⟨by omega, by omega⟩, mem_taskChunk.2 ⟨hi1, hi2⟩⟩
    rw [this]
    exact Finset.card_singleton i
  · intro row h0
    rw [mem_taskChunk] at h0
    apply Finset.eq_empty_of_forall_not_mem
    intro t
    simp only [processedBy, Finset.mem_filter, Finset.mem_Icc]
    rintro ⟨⟨h1, h2⟩, hmem⟩
    rw [mem_taskChunk] at hmem
    have := chunk_unique n (count + 1) hmem.1 hmem.2 h0.1 h0.2
    omega

/-- Witness for the amended C2 at n = 5 rows, task count 2: chunks of
tasks 1 and 2 are disjoint, row 3 (outside chunk 0) is processed by
exactly one task, and row 0 (in chunk 0) by none. -/
theorem job_array_split_amended_witness :
    taskChunk 5 2 1 ∩ taskChunk 5 2 2 = ∅ ∧
    (processedBy 5 2 3).card = 1 ∧
    processedBy 5 2 0 = ∅ := by
  obtain ⟨hdisj, hone, hzero⟩ := job_array_split_amended 5 2
  exact ⟨Finset.disjoint_iff_inter_eq_empty.mp (hdisj 1 2 (by decide)),
    hone 3 (by decide) (by decide), hzero 0 (by decide)⟩

/-- C2 (counterexample): for a dataframe of 2 rows and
SLURM_ARRAY_TASK_COUNT = 1, row 0 lies in chunk 0 of the 2-way split and
is processed by zero tasks of the array 1..1, not exactly one. -/
theorem job_array_row_unprocessed_counterexample :
    (processedBy 2 1 0).card = 0 ∧ 0 < 2 := by
  constructor
  · rfl
  · omega

/-- C9: when the json output file of this array task already exists, the
script raises SystemExit right after creating the output directory: no
wandb run is initialized, no data is loaded, nothing is relaxed and the
output file is not written. -/
theorem early_exit_on_existing_output (env : ScriptEnv)
    (h : env.outFileExists = true) :
    bowsrScript env = ([Effect.makeOutDir], true) ∧
    Effect.wandbInit ∉ (bowsrScript env).1 ∧
    Effect.loadData ∉ (bowsrScript env).1 ∧
    Effect.writeJson ∉ (bowsrScript env).1 ∧
    ∀ id, Effect.relax id ∉ (bowsrScript env).1 := by
  simp [bowsrScript, h]

/-- Witness for C9: a concrete environment whose output file exists. -/
theorem early_exit_on_existing_output_witness :
    bowsrScript ⟨true, ["wbm-1-1", "wbm-1-2"]⟩
      = ([Effect.makeOutDir], true) :=
  (early_exit_on_existing_output ⟨true, ["wbm-1-1", "wbm-1-2"]⟩ rfl).1

end Bowsr

namespace PlotFuncs

theorem cell_class_total (t : ℚ) (pairs : List (Option ℚ × Option ℚ))
    (h : ∀ p ∈ pairs, p.1.isSome ∧ p.2.isSome) :
    (pairs.filter fun p => cellLe p.1 t && cellLe p.2 t).length
    + (pairs.filter fun p => cellLe p.1 t && cellGt p.2 t).length
    + (pairs.filter fun p => cellGt p.1 t && cellLe p.2 t).length
    + (pairs.filter fun p => cellGt p.1 t && cellGt p.2 t).length
    = pairs.length := by
  induction pairs with
  | nil => simp
  | cons p rest ih =>
    obtain ⟨h1, h2⟩ := h p (List.mem_cons_self p rest)
    obtain ⟨a, ha⟩ := Option.isSome_iff_exists.mp h1
    obtain ⟨b, hb⟩ := Option.isSome_iff_exists.mp h2
    have hrest := ih fun q hq => h q (List.mem_cons_of_mem p hq)
    simp only [List.filter_cons]
    rcases le_or_lt a t with hat | hat <;> rcases le_or_lt b t with hbt | hbt
    · have e1 : cellLe p.1 t = true := by simp [cellLe, ha, hat]
      have e2 : cellGt p.1 t = false := by simp [cellGt, ha, not_lt.2 hat]
      have e3 : cellLe p.2 t = true := by simp [cellLe, hb, hbt]
      have e4 : cellGt p.2 t = false := by simp [cellGt, hb, not_lt.2 hbt]
      simp [e1, e2, e3, e4]
      omega
    · have e1 : cellLe p.1 t = true := by simp [cellLe, ha, hat]
      have e2 : cellGt p.1 t = false := by simp [cellGt, ha, not_lt.2 hat]
      have e3 : cellLe p.2 t = false := by simp [cellLe, hb, not_le.2 hbt]
      have e4 : cellGt p.2 t = true := by simp [cellGt, hb, hbt]
      simp [e1, e2, e3, e4]
      omega
    · have e1 : cellLe p.1 t = false := by simp [cellLe, ha, not_le.2 hat]
      have e2 : cellGt p.1 t = true := by simp [cellGt, ha, hat]
      have e3 : cellLe p.2 t = true := by simp [cellLe, hb, hbt]
      have e4 : cellGt p.2 t = false := by simp [cellGt, hb, not_lt.2 hbt]
      simp [e1, e2, e3, e4]
      omega
    · have e1 : cellLe p.1 t = false := by simp [cellLe, ha, not_le.2 hat]
      have e2 : cellGt p.1 t = true := by simp [cellGt, ha, hat]
      have e3 : cellLe p.2 t = false := by simp [cellLe, hb, not_le.2 hbt]
      have e4 : cellGt p.2 t = true := by simp [cellGt, hb, hbt]
      simp [e1, e2, e3, e4]
      omega

theorem mem_zipWith_opt {β : Type} {f : β → β → β} {xs ys : List β} {c : β}
    (hc : c ∈ List.zipWith f xs ys) : ∃ x ∈ xs, ∃ y ∈ ys, c = f x y := by
  induction xs generalizing ys with
  | nil => simp at hc
  | cons x xs ih =>
    cases ys with
    | nil => simp at hc
    | cons y ys =>
      rcases List.mem_cons.mp hc with h | h
      · exact ⟨x, List.mem_cons_self x xs, y, List.mem_cons_self y ys, h⟩
      · obtain ⟨x0, hx0, y0, hy0, hcy⟩ := ih h
        exact ⟨x0, List.mem_cons_of_mem x hx0, y0,
          List.mem_cons_of_mem y hy0, hcy⟩

theorem testSeries_isSome (targets preds eAboveHull : List (Option ℚ))
    (stdVals : Option (List (Option ℚ))) (criterion : Criterion)
    (ht : ∀ c ∈ targets, c.isSome) (hpred : ∀ c ∈ preds, c.isSome)
    (hhull : ∀ c ∈ eAboveHull, c.isSome)
    (hstd : ∀ l, stdVals = some l → ∀ c ∈ l, c.isSome) :
    ∀ c ∈ testSeries targets preds eAboveHull stdVals criterion, c.isSome := by
  have herror : ∀ c ∈ List.zipWith cellSub preds targets, c.isSome := by
    intro c hc
    obtain ⟨x, hx, y, hy, rfl⟩ := mem_zipWith_opt hc
    obtain ⟨x0, rfl⟩ := Option.isSome_iff_exists.mp (hpred x hx)
    obtain ⟨y0, rfl⟩ := Option.isSome_iff_exists.mp (ht y hy)
    simp [cellSub]
  have hmean : ∀ c ∈ List.zipWith cellAdd
      (List.zipWith cellSub preds targets) eAboveHull, c.isSome := by
    intro c hc
    obtain ⟨x, hx, y, hy, rfl⟩ := mem_zipWith_opt hc
    obtain ⟨x0, rfl⟩ := Option.isSome_iff_exists.mp (herror x hx)
    obtain ⟨y0, rfl⟩ := Option.isSome_iff_exists.mp (hhull y hy)
    simp [cellAdd]
  intro c hc
  rcases hstdv : stdVals with _ | l
  · rcases criterion <;> rw [hstdv] at hc <;>
      simp only [testSeries] at hc <;> exact hmean c hc
  · have hl := hstd l hstdv
    rcases criterion <;> rw [hstdv] at hc <;> simp only [testSeries] at hc
    · exact hmean c hc
    · obtain ⟨x, hx, y, hy, rfl⟩ := mem_zipWith_opt hc
      obtain ⟨x0, rfl⟩ := Option.isSome_iff_exists.mp (hmean x hx)
      obtain ⟨y0, rfl⟩ := Option.isSome_iff_exists.mp (hl y hy)
      simp [cellAdd]
    · obtain ⟨x, hx, y, hy, rfl⟩ := mem_zipWith_opt hc
      obtain ⟨x0, rfl⟩ := Option.isSome_iff_exists.mp (hmean x hx)
      obtain ⟨y0, rfl⟩ := Option.isSome_iff_exists.mp (hl y hy)
      simp [cellSub]

theorem testSeries_length (targets preds eAboveHull : List (Option ℚ))
    (stdVals : Option (List (Option ℚ))) (criterion : Criterion)
    (hp : preds.length = targets.length)
    (he : eAboveHull.length = targets.length)
    (hs : ∀ l, stdVals = some l → l.length = targets.length) :
    (testSeries targets preds eAboveHull stdVals criterion).length
      = targets.length := by
  rcases hstdv : stdVals with _ | l
  · rcases criterion <;> simp [testSeries, List.length_zipWith, hp, he]
  · have hl := hs l hstdv
    rcases criterion <;>
      simp [testSeries, List.length_zipWith, hp, he, hl]

/-- C4: when no input series contains NaN, every material falls in exactly
one of the four classes (actual stability: e_above_hull at most 0,
predicted stability: the test series at most 0), so the four class counts
sum to the number of input materials, as the runtime assert checks. -/
theorem class_counts_sum (targets preds eAboveHull : List (Option ℚ))
    (stdVals : Option (List (Option ℚ))) (criterion : Criterion)
    (hp : preds.length = targets.length)
    (he : eAboveHull.length = targets.length)
    (hs : ∀ l, stdVals = some l → l.length = targets.length)
    (ht : ∀ c ∈ targets, c.isSome) (hpred : ∀ c ∈ preds, c.isSome)
    (hhull : ∀ c ∈ eAboveHull, c.isSome)
    (hstd : ∀ l, stdVals = some l → ∀ c ∈ l, c.isSome) :
    (classCounts targets preds eAboveHull stdVals criterion).1
    + (classCounts targets preds eAboveHull stdVals criterion).2.1
    + (classCounts targets preds eAboveHull stdVals criterion).2.2.1
    + (classCounts targets preds eAboveHull stdVals criterion).2.2.2
    = targets.length := by
  have hlen := testSeries_length targets preds eAboveHull stdVals criterion
    hp he hs
  have hsome := testSeries_isSome targets preds eAboveHull stdVals criterion
    ht hpred hhull hstd
  have hpairs : ∀ p ∈ eAboveHull.zip
      (testSeries targets preds eAboveHull stdVals criterion),
      (Prod.fst p).isSome ∧ (Prod.snd p).isSome := by
    intro p hmem
    obtain ⟨e, tv⟩ := p
    have hz := List.of_mem_zip hmem
    exact ⟨hhull e hz.1, hsome tv hz.2⟩
  have hz : (eAboveHull.zip
      (testSeries targets preds eAboveHull stdVals criterion)).length
      = targets.length := by
    rw [List.length_zip, hlen, he]
    omega
  simp only [classCounts]
  rw [cell_class_total stabilityThresh _ hpairs]
  exact hz

/-- Witness for C4: two NaN-free series of two materials each. -/
theorem class_counts_sum_witness :
    (classCounts [some 0, some 1] [some (1/2), some 1]
      [some (-1/10), some (2/10)] none Criterion.energy).1
    + (classCounts [some 0, some 1] [some (1/2), some 1]
      [some (-1/10), some (2/10)] none Criterion.energy).2.1
    + (classCounts [some 0, some 1] [some (1/2), some 1]
      [some (-1/10), some (2/10)] none Criterion.energy).2.2.1
    + (classCounts [some 0, some 1] [some (1/2), some 1]
      [some (-1/10), some (2/10)] none Criterion.energy).2.2.2
    = 2 :=
  class_counts_sum [some 0, some 1] [some (1/2), some 1]
    [some (-1/10), some (2/10)] none Criterion.energy rfl rfl
    (fun l h => nomatch h) (by simp) (by simp) (by simp)
    (fun l h => nomatch h)

end PlotFuncs

namespace SymAnalysis

theorem analyzeRows_eq_ok {α : Type} (gsd : α → ℚ → ℚ → Option SpglibDataset)
    (reprStruct : α → String) (symprec angle_tolerance : ℚ)
    (structures : List (String × α))
    (h : ∀ p ∈ structures, (gsd p.2 symprec angle_tolerance).isSome) :
    analyzeRows gsd reprStruct symprec angle_tolerance structures
      = .ok (structures.map fun p =>
          (p.1, mkSymRow ((gsd p.2 symprec angle_tolerance).getD emptyDataset)
            symprec angle_tolerance)) := by
  induction structures with
  | nil => rfl
  | cons q rest ih =>
    obtain ⟨k, s⟩ := q
    obtain ⟨d, hd⟩ := Option.isSome_iff_exists.mp
      (h (k, s) (List.mem_cons_self (k, s) rest))
    have hrest := ih fun p hp => h p (List.mem_cons_of_mem (k, s) hp)
    simp [analyzeRows, hd, hrest, Except.map]

theorem lookupStruct_map {α β : Type} (g : String × α → β) :
    ∀ (l : List (String × α)) (p : String × α), p ∈ l →
      (l.map Prod.fst).Nodup →
      lookupStruct (l.map fun q => (q.1, g q)) p.1 = some (g p) := by
  intro l
  induction l with
  | nil => intro p hp; exact absurd hp (List.not_mem_nil p)
  | cons q rest ih =>
    intro p hp hnodup
    rw [List.map_cons, List.nodup_cons] at hnodup
    by_cases hq : q.1 = p.1
    · have hpq : p = q := by
        rcases List.mem_cons.mp hp with h | h
        · exact h
        · exact absurd (hq ▸ List.mem_map_of_mem Prod.fst h) hnodup.1
      subst hpq
      simp [lookupStruct, List.find?_cons_of_pos, hq]
    · have hmem : p ∈ rest := by
        rcases List.mem_cons.mp hp with h | h
        · exact absurd (congrArg Prod.fst h.symm) hq
        · exact h
      have hfind : lookupStruct (rest.map fun q => (q.1, g q)) p.1
          = some (g p) := ih p hmem hnodup.2
      simp only [List.map_cons, lookupStruct] at hfind ⊢
      rw [List.find?_cons_of_neg _ (by simpa using hq)]
      exact hfind

/-- C5: when spglib returns a dataset for every structure, analyze_symmetry
returns a DataFrame indexed by material id with exactly one row per input
id, whose columns are the renamed spglib fields (spacegroup number, hall
number, international symbol, hall symbol, choice symbol, point group,
Wyckoff symbols), the three symmetry-operation counts, and the symprec and
angle_tolerance used. -/
theorem analyze_symmetry_spec {α : Type}
    (gsd : α → ℚ → ℚ → Option SpglibDataset) (reprStruct : α → String)
    (structures : List (String × α)) (symprec angle_tolerance : ℚ)
    (h : ∀ p ∈ structures, (gsd p.2 symprec angle_tolerance).isSome)
    (hnodup : (structures.map Prod.fst).Nodup) :
    ∃ df, analyze_symmetry gsd reprStruct structures symprec angle_tolerance
        = .ok df ∧
      df.indexName = "material_id" ∧
      df.rows.map Prod.fst = structures.map Prod.fst ∧
      (df.rows.map Prod.fst).Nodup ∧
      ∀ p ∈ structures, ∀ d, gsd p.2 symprec angle_tolerance = some d →
        ∃ r, lookupStruct df.rows p.1 = some r ∧
          r.spg_num = d.number ∧ r.hall_num = d.hall_number ∧
          r.international_spg_name = d.international ∧
          r.hall_symbol = d.hall ∧ r.choice_symbol = d.choice ∧
          r.point_group = d.pointgroup ∧
          r.wyckoff_symbols = d.wyckoffs ∧
          r.n_sym_ops = d.rotations.length ∧
          r.n_rot_syms = d.rotations.length ∧
          r.n_trans_syms = d.translations.length ∧
          r.symprec = symprec ∧ r.angle_tolerance = angle_tolerance := by
  refine ⟨⟨"material_id", structures.map fun p =>
    (p.1, mkSymRow ((gsd p.2 symprec angle_tolerance).getD emptyDataset)
      symprec angle_tolerance)⟩, ?_, rfl, ?_, ?_, ?_⟩
  · unfold analyze_symmetry
    rw [analyzeRows_eq_ok gsd reprStruct symprec angle_tolerance structures h]
    rfl
  · simp
  · simpa using hnodup
  · intro p hp d hd
    refine ⟨mkSymRow d symprec angle_tolerance, ?_, rfl, rfl, rfl, rfl, rfl,
      rfl, rfl, rfl, rfl, rfl, rfl, rfl⟩
    have hlook := lookupStruct_map
      (fun q => mkSymRow ((gsd q.2 symprec angle_tolerance).getD emptyDataset)
        symprec angle_tolerance) structures p hp hnodup
    rw [hlook]
    simp [hd]

/-- Witness for C5: one structure, a constant spglib result. -/
theorem analyze_symmetry_spec_witness :
    ∃ df, analyze_symmetry (fun (_ : String) (_ _ : ℚ) => some demoDataset)
        id [("mp-1", "s")] (1/100) (-1) = .ok df ∧
      df.rows.map Prod.fst = ["mp-1"] := by
  obtain ⟨df, hok, hname, hfst, hnd, hrow⟩ :=
    analyze_symmetry_spec (fun (_ : String) (_ _ : ℚ) => some demoDataset)
      id [("mp-1", "s")] (1/100) (-1) (by simp) (by simp)
  exact ⟨df, hok, by simpa using hfst⟩

theorem analyzeRows_error_iff {α : Type}
    (gsd : α → ℚ → ℚ → Option SpglibDataset) (reprStruct : α → String)
    (symprec angle_tolerance : ℚ) (structures : List (String × α)) :
    ((∃ p ∈ structures, gsd p.2 symprec angle_tolerance = none) ↔
      ∃ msg, analyzeRows gsd reprStruct symprec angle_tolerance structures
        = .error msg) ∧
    (∀ msg, analyzeRows gsd reprStruct symprec angle_tolerance structures
        = .error msg →
      ∃ p ∈ structures, gsd p.2 symprec angle_tolerance = none ∧
        msg = "spglib returned None for " ++ p.1 ++ "\n" ++ reprStruct p.2) := by
  induction structures with
  | nil =>
    constructor
    · constructor
      · rintro ⟨p, hp, -⟩
        exact absurd hp (List.not_mem_nil p)
      · rintro ⟨msg, hmsg⟩
        simp [analyzeRows] at hmsg
    · intro msg hmsg
      simp [analyzeRows] at hmsg
  | cons q rest ih =>
    obtain ⟨k, s⟩ := q
    rcases hgs : gsd s symprec angle_tolerance with - | d
    · constructor
      · apply iff_of_true
        · exact ⟨(k, s), List.mem_cons_self (k, s) rest, hgs⟩
        · exact ⟨"spglib returned None for " ++ k ++ "\n" ++ reprStruct s,
            by simp [analyzeRows, hgs]⟩
      · intro msg hmsg
        simp only [analyzeRows, hgs] at hmsg
        exact ⟨(k, s), List.mem_cons_self (k, s) rest, hgs,
          (Except.error.inj hmsg).symm⟩
    · cases hrec : analyzeRows gsd reprStruct symprec angle_tolerance rest with
      | error msg0 =>
        constructor
        · apply iff_of_true
          · obtain ⟨p, hp, hnone⟩ := ih.1.mpr ⟨msg0, hrec⟩
            exact ⟨p, List.mem_cons_of_mem (k, s) hp, hnone⟩
          · exact ⟨msg0, by simp [analyzeRows, hgs, hrec, Except.map]⟩
        · intro msg hmsg
          simp only [analyzeRows, hgs, hrec, Except.map] at hmsg
          obtain ⟨p, hp, hnone, heq⟩ := ih.2 msg0 hrec
          exact ⟨p, List.mem_cons_of_mem (k, s) hp, hnone,
            (Except.error.inj hmsg).symm ▸ heq⟩
      | ok rs =>
        constructor
        · apply iff_of_false
          · rintro ⟨p, hp, hnone⟩
            rcases List.mem_cons.mp hp with heq | hmem
            · rw [heq] at hnone
              simp only at hnone
              rw [hnone] at hgs
              exact Option.noConfusion hgs
            · obtain ⟨msg, hmsg⟩ := ih.1.mp ⟨p, hmem, hnone⟩
              rw [hmsg] at hrec
              exact Except.noConfusion hrec
          · rintro ⟨msg, hmsg⟩
            simp [analyzeRows, hgs, hrec, Except.map] at hmsg
        · intro msg hmsg
          simp [analyzeRows, hgs, hrec, Except.map] at hmsg

/-- C10: analyze_symmetry raises ValueError, with a message naming the
offending material ID, exactly when spglib returns None for some
structure of the input dictionary; when it raises, no DataFrame is
returned. -/
theorem analyze_symmetry_error_spec {α : Type}
    (gsd : α → ℚ → ℚ → Option SpglibDataset) (reprStruct : α → String)
    (structures : List (String × α)) (symprec angle_tolerance : ℚ) :
    ((∃ p ∈ structures, gsd p.2 symprec angle_tolerance = none) ↔
      ∃ msg, analyze_symmetry gsd reprStruct structures symprec
        angle_tolerance = .error msg) ∧
    (∀ msg, analyze_symmetry gsd reprStruct structures symprec
        angle_tolerance = .error msg →
      ∃ p ∈ structures, gsd p.2 symprec angle_tolerance = none ∧
        msg = "spglib returned None for " ++ p.1 ++ "\n" ++ reprStruct p.2) ∧
    (∀ msg df, analyze_symmetry gsd reprStruct structures symprec
        angle_tolerance = .error msg →
      analyze_symmetry gsd reprStruct structures symprec angle_tolerance
        ≠ .ok df) := by
  have h := analyzeRows_error_iff gsd reprStruct symprec angle_tolerance
    structures
  unfold analyze_symmetry
  cases hrec : analyzeRows gsd reprStruct symprec angle_tolerance structures
    with
  | error e =>
    refine ⟨iff_of_true (h.1.mpr ⟨e, hrec⟩) ⟨e, by simp [Except.map]⟩, ?_, ?_⟩
    · intro msg hmsg
      simp only [Except.map] at hmsg
      obtain ⟨p, hp, hnone, heq⟩ := h.2 e hrec
      exact ⟨p, hp, hnone, (Except.error.inj hmsg).symm ▸ heq⟩
    · intro msg df hmsg hok
      simp [Except.map] at hok
  | ok rs =>
    refine ⟨iff_of_false ?_ ?_, ?_, ?_⟩
    · intro hex
      obtain ⟨msg, hmsg⟩ := h.1.mp hex
      rw [hmsg] at hrec
      exact Except.noConfusion hrec
    · rintro ⟨msg, hmsg⟩
      simp [Except.map] at hmsg
    · intro msg hmsg
      simp [Except.map] at hmsg
    · intro msg df hmsg
      simp [Except.map] at hmsg

/-- Witness for C10: a single structure for which spglib returns None. -/
theorem analyze_symmetry_error_spec_witness :
    ∃ msg, analyze_symmetry (fun (_ : String) (_ _ : ℚ) => none) id
      [("mp-1", "struct-print")] (1/100) (-1) = .error msg :=
  (analyze_symmetry_error_spec (fun (_ : String) (_ _ : ℚ) => none) id
    [("mp-1", "struct-print")] (1/100) (-1)).1.mp
    ⟨("mp-1", "struct-print"),
      List.mem_cons_self ("mp-1", "struct-print") [], rfl⟩

end SymAnalysis

namespace SymAnalysis

theorem locSet_data (df : DFrame) (id col : String) (v : Option ℚ)
    (c i : String) :
    (locSet df id col v).data c i
      = if c = col ∧ i = id then v else df.data c i := rfl

theorem locSet_mem_cols {df : DFrame} {c : String} (h : c ∈ df.cols)
    (id col : String) (v : Option ℚ) : c ∈ (locSet df id col v).cols := by
  by_cases hc : col ∈ df.cols <;> simp [locSet, hc, h]

theorem locSet_mem_cols_self (df : DFrame) (id col : String)
    (v : Option ℚ) : col ∈ (locSet df id col v).cols := by
  by_cases hc : col ∈ df.cols <;> simp [locSet, hc]

theorem locSet_mem_index {df : DFrame} {i : String} (h : i ∈ df.index)
    (id col : String) (v : Option ℚ) : i ∈ (locSet df id col v).index := by
  by_cases hid : id ∈ df.index <;> simp [locSet, hid, h]

theorem locSet_mem_index_self (df : DFrame) (id col : String)
    (v : Option ℚ) : id ∈ (locSet df id col v).index := by
  by_cases hid : id ∈ df.index <;> simp [locSet, hid]

theorem setCol_index (df : DFrame) (col : String) (f : String → Option ℚ) :
    (setCol df col f).index = df.index := rfl

theorem setCol_mem_cols {df : DFrame} {c : String} (h : c ∈ df.cols)
    (col : String) (f : String → Option ℚ) : c ∈ (setCol df col f).cols := by
  by_cases hc : col ∈ df.cols <;> simp [setCol, hc, h]

theorem setCol_mem_cols_self (df : DFrame) (col : String)
    (f : String → Option ℚ) : col ∈ (setCol df col f).cols := by
  by_cases hc : col ∈ df.cols <;> simp [setCol, hc]

theorem setCol_data_self (df : DFrame) (col : String)
    (f : String → Option ℚ) {i : String} (hi : i ∈ df.index) :
    (setCol df col f).data col i = f i := by
  simp [setCol, hi]

theorem setCol_data_other (df : DFrame) (col : String)
    (f : String → Option ℚ) {c : String} (hc : c ≠ col) (i : String) :
    (setCol df col f).data c i = df.data c i := by
  simp [setCol, hc]

theorem rmsdLoopStep_data {σ : Type} (rms : σ → σ → Option (ℚ × ℚ))
    (predS refS : List (String × σ)) (df : DFrame) (m c i : String) :
    (rmsdLoopStep rms predS refS df m).data c i
      = if c = maxPairDistKey ∧ i = m
          then (rmsVal rms predS refS m).map Prod.snd
        else if c = rmsdKey ∧ i = m
          then (rmsVal rms predS refS m).map Prod.fst
        else df.data c i := rfl

theorem rmsdLoopStep_mem_index {σ : Type} {rms : σ → σ → Option (ℚ × ℚ)}
    {predS refS : List (String × σ)} {df : DFrame} {i : String}
    (h : i ∈ df.index) (m : String) :
    i ∈ (rmsdLoopStep rms predS refS df m).index :=
  locSet_mem_index (locSet_mem_index h m rmsdKey _) m maxPairDistKey _

theorem rmsdLoopStep_mem_index_self {σ : Type}
    {rms : σ → σ → Option (ℚ × ℚ)} {predS refS : List (String × σ)}
    (df : DFrame) (m : String) :
    m ∈ (rmsdLoopStep rms predS refS df m).index :=
  locSet_mem_index (locSet_mem_index_self df m rmsdKey _) m maxPairDistKey _

theorem rmsdLoopStep_mem_cols {σ : Type} {rms : σ → σ → Option (ℚ × ℚ)}
    {predS refS : List (String × σ)} {df : DFrame} {c : String}
    (h : c ∈ df.cols) (m : String) :
    c ∈ (rmsdLoopStep rms predS refS df m).cols :=
  locSet_mem_cols (locSet_mem_cols h m rmsdKey _) m maxPairDistKey _

theorem rmsdLoopStep_mem_cols_rmsd {σ : Type}
    {rms : σ → σ → Option (ℚ × ℚ)} {predS refS : List (String × σ)}
    (df : DFrame) (m : String) :
    rmsdKey ∈ (rmsdLoopStep rms predS refS df m).cols :=
  locSet_mem_cols (locSet_mem_cols_self df m rmsdKey _) m maxPairDistKey _

theorem rmsdLoopStep_mem_cols_max {σ : Type}
    {rms : σ → σ → Option (ℚ × ℚ)} {predS refS : List (String × σ)}
    (df : DFrame) (m : String) :
    maxPairDistKey ∈ (rmsdLoopStep rms predS refS df m).cols :=
  locSet_mem_cols_self _ m maxPairDistKey _

theorem foldl_mem_index {σ : Type} (rms : σ → σ → Option (ℚ × ℚ))
    (predS refS : List (String × σ)) (l : List String) :
    ∀ (df : DFrame) (i : String), i ∈ df.index →
      i ∈ (List.foldl (rmsdLoopStep rms predS refS) df l).index := by
  induction l with
  | nil => exact fun df i h => h
  | cons m rest ih =>
    intro df i h
    exact ih _ i (rmsdLoopStep_mem_index h m)

theorem foldl_mem_cols {σ : Type} (rms : σ → σ → Option (ℚ × ℚ))
    (predS refS : List (String × σ)) (l : List String) :
    ∀ (df : DFrame) (c : String), c ∈ df.cols →
      c ∈ (List.foldl (rmsdLoopStep rms predS refS) df l).cols := by
  induction l with
  | nil => exact fun df c h => h
  | cons m rest ih =>
    intro df c h
    exact ih _ c (rmsdLoopStep_mem_cols h m)

theorem foldl_mem_of_mem_list {σ : Type} (rms : σ → σ → Option (ℚ × ℚ))
    (predS refS : List (String × σ)) (l : List String) :
    ∀ (df : DFrame) (i : String), i ∈ l →
      i ∈ (List.foldl (rmsdLoopStep rms predS refS) df l).index ∧
      rmsdKey ∈ (List.foldl (rmsdLoopStep rms predS refS) df l).cols ∧
      maxPairDistKey
        ∈ (List.foldl (rmsdLoopStep rms predS refS) df l).cols := by
  induction l with
  | nil => exact fun df i h => absurd h (List.not_mem_nil i)
  | cons m rest ih =>
    intro df i h
    rcases List.mem_cons.mp h with rfl | hmem
    · exact ⟨foldl_mem_index rms predS refS rest _ i
          (rmsdLoopStep_mem_index_self df i),
        foldl_mem_cols rms predS refS rest _ _
          (rmsdLoopStep_mem_cols_rmsd df i),
        foldl_mem_cols rms predS refS rest _ _
          (rmsdLoopStep_mem_cols_max df i)⟩
    · exact ih _ i hmem

theorem foldl_data_not_mem {σ : Type} (rms : σ → σ → Option (ℚ × ℚ))
    (predS refS : List (String × σ)) (l : List String) :
    ∀ (df : DFrame) (c i : String), i ∉ l →
      (List.foldl (rmsdLoopStep rms predS refS) df l).data c i
        = df.data c i := by
  induction l with
  | nil => exact fun df c i _ => rfl
  | cons m rest ih =>
    intro df c i h
    have hm : i ≠ m := fun he => h (he ▸ List.mem_cons_self m rest)
    rw [List.foldl_cons, ih _ c i fun hr => h (List.mem_cons_of_mem m hr),
      rmsdLoopStep_data]
    simp [hm]

theorem foldl_data_other_col {σ : Type} (rms : σ → σ → Option (ℚ × ℚ))
    (predS refS : List (String × σ)) (l : List String) :
    ∀ (df : DFrame) (c i : String), c ≠ rmsdKey → c ≠ maxPairDistKey →
      (List.foldl (rmsdLoopStep rms predS refS) df l).data c i
        = df.data c i := by
  induction l with
  | nil => exact fun df c i _ _ => rfl
  | cons m rest ih =>
    intro df c i h1 h2
    rw [List.foldl_cons, ih _ c i h1 h2, rmsdLoopStep_data]
    simp [h1, h2]

theorem foldl_data_written {σ : Type} (rms : σ → σ → Option (ℚ × ℚ))
    (predS refS : List (String × σ)) (l : List String) :
    ∀ (df : DFrame) (i : String), i ∈ l →
      (List.foldl (rmsdLoopStep rms predS refS) df l).data rmsdKey i
        = (rmsVal rms predS refS i).map Prod.fst ∧
      (List.foldl (rmsdLoopStep rms predS refS) df l).data maxPairDistKey i
        = (rmsVal rms predS refS i).map Prod.snd := by
  induction l with
  | nil => exact fun df i h => absurd h (List.not_mem_nil i)
  | cons m rest ih =>
    intro df i h
    by_cases hr : i ∈ rest
    · exact ih _ i hr
    · have him : i = m := by
        rcases List.mem_cons.mp h with h0 | h0
        · exact h0
        · exact absurd h0 hr
      subst him
      have hk : rmsdKey ≠ maxPairDistKey := by decide
      rw [List.foldl_cons]
      constructor
      · rw [foldl_data_not_mem rms predS refS rest _ rmsdKey i hr,
          rmsdLoopStep_data]
        simp [hk]
      · rw [foldl_data_not_mem rms predS refS rest _ maxPairDistKey i hr,
          rmsdLoopStep_data]
        simp

theorem dfBeforeLoop_index (dfPred dfRef : DFrame) :
    (dfBeforeLoop dfPred dfRef).index = dfPred.index := rfl

theorem dfBeforeLoop_data_spg (dfPred dfRef : DFrame) {i : String}
    (hi : i ∈ dfPred.index) :
    (dfBeforeLoop dfPred dfRef).data spgNumDiffKey i
      = omap2 (fun a b => a - b) (getCell dfPred spgNumKey i)
          (getCell dfRef spgNumKey i) := by
  have hk1 : spgNumDiffKey ≠ rmsdKey := by decide
  have hk2 : spgNumDiffKey ≠ nSymOpsDiffKey := by decide
  simp [dfBeforeLoop, setCol, hk1, hk2, hi]

theorem dfBeforeLoop_data_ops (dfPred dfRef : DFrame) {i : String}
    (hi : i ∈ dfPred.index) :
    (dfBeforeLoop dfPred dfRef).data nSymOpsDiffKey i
      = omap2 (fun a b => a - b) (getCell dfPred nSymOpsKey i)
          (getCell dfRef nSymOpsKey i) := by
  have hk1 : nSymOpsDiffKey ≠ rmsdKey := by decide
  simp [dfBeforeLoop, setCol, hk1, hi]

theorem dfBeforeLoop_data_rmsd (dfPred dfRef : DFrame) (i : String) :
    (dfBeforeLoop dfPred dfRef).data rmsdKey i = none := by
  simp [dfBeforeLoop, setCol]

/-- C3: pred_vs_ref_struct_symmetry extends df_sym_pred: every input row
survives; the spacegroup-number and symmetry-operation-count difference
columns hold predicted minus reference (aligned on the index, with a
missing value when either side is missing); the RMSD and max-pair-distance
cells are the pymatgen structure-matcher results exactly for the material
ids present in both structure dictionaries (both components None when the
matcher finds no match); and the RMSD cell is None for every indexed id
missing from either dictionary. -/
theorem pred_vs_ref_struct_symmetry_spec {σ : Type}
    (rms : σ → σ → Option (ℚ × ℚ)) (dfPred dfRef : DFrame)
    (predS refS : List (String × σ)) :
    (∀ id ∈ dfPred.index,
      id ∈ (pred_vs_ref_struct_symmetry rms dfPred dfRef predS refS).index) ∧
    (∀ id ∈ dfPred.index,
      getCell (pred_vs_ref_struct_symmetry rms dfPred dfRef predS refS)
          spgNumDiffKey id
        = omap2 (fun a b => a - b) (getCell dfPred spgNumKey id)
            (getCell dfRef spgNumKey id)) ∧
    (∀ id ∈ dfPred.index,
      getCell (pred_vs_ref_struct_symmetry rms dfPred dfRef predS refS)
          nSymOpsDiffKey id
        = omap2 (fun a b => a - b) (getCell dfPred nSymOpsKey id)
            (getCell dfRef nSymOpsKey id)) ∧
    (∀ id ∈ sharedIds predS refS, ∀ a b,
      lookupStruct predS id = some a → lookupStruct refS id = some b →
      getCell (pred_vs_ref_struct_symmetry rms dfPred dfRef predS refS)
          rmsdKey id = (rms a b).map Prod.fst ∧
      getCell (pred_vs_ref_struct_symmetry rms dfPred dfRef predS refS)
          maxPairDistKey id = (rms a b).map Prod.snd) ∧
    (∀ id ∈ dfPred.index, id ∉ sharedIds predS refS →
      getCell (pred_vs_ref_struct_symmetry rms dfPred dfRef predS refS)
          rmsdKey id = none) := by
  have hrun : pred_vs_ref_struct_symmetry rms dfPred dfRef predS refS
      = List.foldl (rmsdLoopStep rms predS refS) (dfBeforeLoop dfPred dfRef)
          (sharedIds predS refS) := rfl
  have hmemidx : ∀ id ∈ dfPred.index,
      id ∈ (pred_vs_ref_struct_symmetry rms dfPred dfRef predS refS).index := by
    intro id h
    rw [hrun]
    exact foldl_mem_index rms predS refS _ _ id
      ((dfBeforeLoop_index dfPred dfRef).symm ▸ h)
  refine ⟨hmemidx, ?_, ?_, ?_, ?_⟩
  · intro id h
    have hcols : spgNumDiffKey
        ∈ (pred_vs_ref_struct_symmetry rms dfPred dfRef predS refS).cols := by
      rw [hrun]
      exact foldl_mem_cols rms predS refS _ _ _
        (setCol_mem_cols (setCol_mem_cols (setCol_mem_cols_self _ _ _) _ _)
          _ _)
    rw [getCell, if_pos ⟨hcols, hmemidx id h⟩, hrun,
      foldl_data_other_col rms predS refS _ _ _ _ (by decide) (by decide),
      dfBeforeLoop_data_spg dfPred dfRef h]
  · intro id h
    have hcols : nSymOpsDiffKey
        ∈ (pred_vs_ref_struct_symmetry rms dfPred dfRef predS refS).cols := by
      rw [hrun]
      exact foldl_mem_cols rms predS refS _ _ _
        (setCol_mem_cols (setCol_mem_cols_self _ _ _) _ _)
    rw [getCell, if_pos ⟨hcols, hmemidx id h⟩, hrun,
      foldl_data_other_col rms predS refS _ _ _ _ (by decide) (by decide),
      dfBeforeLoop_data_ops dfPred dfRef h]
  · intro id hid a b ha hb
    obtain ⟨hmem, hrk, hmk⟩ := foldl_mem_of_mem_list rms predS refS
      (sharedIds predS refS) (dfBeforeLoop dfPred dfRef) id hid
    have hval := foldl_data_written rms predS refS (sharedIds predS refS)
      (dfBeforeLoop dfPred dfRef) id hid
    have hv : rmsVal rms predS refS id = rms a b := by
      simp [rmsVal, ha, hb]
    constructor
    · rw [hrun, getCell, if_pos ⟨hrk, hmem⟩, hval.1, hv]
    · rw [hrun, getCell, if_pos ⟨hmk, hmem⟩, hval.2, hv]
  · intro id h hnot
    have hcols : rmsdKey
        ∈ (pred_vs_ref_struct_symmetry rms dfPred dfRef predS refS).cols := by
      rw [hrun]
      exact foldl_mem_cols rms predS refS _ _ _ (setCol_mem_cols_self _ _ _)
    rw [getCell, if_pos ⟨hcols, hmemidx id h⟩, hrun,
      foldl_data_not_mem rms predS refS _ _ _ _ hnot,
      dfBeforeLoop_data_rmsd dfPred dfRef id]

/-- Witness for C3: one shared material id with differing symmetry. -/
theorem pred_vs_ref_struct_symmetry_spec_witness :
    getCell (pred_vs_ref_struct_symmetry demoRms demoDfPred demoDfRef
        [("wbm-1", 0)] [("wbm-1", 1)]) spgNumDiffKey "wbm-1" = some 31 ∧
    getCell (pred_vs_ref_struct_symmetry demoRms demoDfPred demoDfRef
        [("wbm-1", 0)] [("wbm-1", 1)]) rmsdKey "wbm-1" = some (1/100) := by
  obtain ⟨hidx, hspg, hops, hrms, hnone⟩ :=
    pred_vs_ref_struct_symmetry_spec demoRms demoDfPred demoDfRef
      [("wbm-1", 0)] [("wbm-1", 1)]
  constructor
  · rw [hspg "wbm-1" (by simp [demoDfPred])]
    simp [getCell, demoDfPred, demoDfRef, omap2, spgNumKey, nSymOpsKey]
    norm_num
  · rw [(hrms "wbm-1" (by simp [sharedIds, lookupStruct])
      0 1 rfl rfl).1]
    simp [demoRms]

/-- C8: pred_vs_ref_struct_symmetry leaves df_sym_pred unchanged: the
caller's binding still holds the original DataFrame after the call, and
in the returned copy every original column and cell is intact (given the
four added column names do not already occur, as for analyze_symmetry
output). -/
theorem pred_vs_ref_input_unchanged {σ : Type}
    (rms : σ → σ → Option (ℚ × ℚ)) (dfPred dfRef : DFrame)
    (predS refS : List (String × σ))
    (h1 : spgNumDiffKey ∉ dfPred.cols) (h2 : nSymOpsDiffKey ∉ dfPred.cols)
    (h3 : rmsdKey ∉ dfPred.cols) (h4 : maxPairDistKey ∉ dfPred.cols) :
    (pred_vs_ref_run rms dfPred dfRef predS refS).1 = dfPred ∧
    (∀ c ∈ dfPred.cols,
      c ∈ (pred_vs_ref_struct_symmetry rms dfPred dfRef predS refS).cols) ∧
    (∀ id ∈ dfPred.index,
      id ∈ (pred_vs_ref_struct_symmetry rms dfPred dfRef predS refS).index) ∧
    (∀ c ∈ dfPred.cols, ∀ id ∈ dfPred.index,
      getCell (pred_vs_ref_struct_symmetry rms dfPred dfRef predS refS) c id
        = getCell dfPred c id) := by
  have hrun : pred_vs_ref_struct_symmetry rms dfPred dfRef predS refS
      = List.foldl (rmsdLoopStep rms predS refS) (dfBeforeLoop dfPred dfRef)
          (sharedIds predS refS) := rfl
  have hcols : ∀ c ∈ dfPred.cols,
      c ∈ (pred_vs_ref_struct_symmetry rms dfPred dfRef predS refS).cols := by
    intro c hc
    rw [hrun]
    exact foldl_mem_cols rms predS refS _ _ _
      (setCol_mem_cols (setCol_mem_cols (setCol_mem_cols hc _ _) _ _) _ _)
  have hidx : ∀ id ∈ dfPred.index,
      id ∈ (pred_vs_ref_struct_symmetry rms dfPred dfRef predS refS).index := by
    intro id h
    rw [hrun]
    exact foldl_mem_index rms predS refS _ _ id
      ((dfBeforeLoop_index dfPred dfRef).symm ▸ h)
  refine ⟨rfl, hcols, hidx, ?_⟩
  intro c hc id hid
  have hc1 : c ≠ spgNumDiffKey := fun he => h1 (he ▸ hc)
  have hc2 : c ≠ nSymOpsDiffKey := fun he => h2 (he ▸ hc)
  have hc3 : c ≠ rmsdKey := fun he => h3 (he ▸ hc)
  have hc4 : c ≠ maxPairDistKey := fun he => h4 (he ▸ hc)
  rw [getCell, if_pos ⟨hcols c hc, hidx id hid⟩, hrun,
    foldl_data_other_col rms predS refS _ _ _ _ hc3 hc4]
  unfold dfBeforeLoop
  rw [setCol_data_other _ _ _ hc3, setCol_data_other _ _ _ hc2,
    setCol_data_other _ _ _ hc1, getCell, if_pos ⟨hc, hid⟩]

/-- Witness for C8: the concrete one-row DataFrames. -/
theorem pred_vs_ref_input_unchanged_witness :
    (pred_vs_ref_run demoRms demoDfPred demoDfRef
      [("wbm-1", 0)] [("wbm-1", 1)]).1 = demoDfPred ∧
    getCell (pred_vs_ref_struct_symmetry demoRms demoDfPred demoDfRef
        [("wbm-1", 0)] [("wbm-1", 1)]) spgNumKey "wbm-1"
      = getCell demoDfPred spgNumKey "wbm-1" := by
  obtain ⟨ha, hb, hc, hd⟩ := pred_vs_ref_input_unchanged demoRms demoDfPred
    demoDfRef [("wbm-1", 0)] [("wbm-1", 1)] (by decide) (by decide)
    (by decide) (by decide)
  exact ⟨ha, hd spgNumKey (by decide) "wbm-1" (by decide)⟩

end SymAnalysis

namespace Figshare

theorem alistGet_alistSet_self {β : Type} :
    ∀ (l : List (String × β)) (k : String) (v : β),
      alistGet (alistSet l k v) k = some v := by
  intro l
  induction l with
  | nil => intro k v; simp [alistSet, alistGet]
  | cons p rest ih =>
    intro k v
    by_cases hp : p.1 = k <;> simp [alistSet, alistGet, hp, ih k v]

theorem alistGet_alistSet_other {β : Type} :
    ∀ (l : List (String × β)) (k k2 : String) (v : β), k ≠ k2 →
      alistGet (alistSet l k v) k2 = alistGet l k2 := by
  intro l
  induction l with
  | nil => intro k k2 v h; simp [alistSet, alistGet, h]
  | cons p rest ih =>
    intro k k2 v h
    by_cases hp : p.1 = k
    · have hpk2 : ¬ p.1 = k2 := fun he => h (hp.symm.trans he)
      simp [alistSet, alistGet, hp, hpk2, h]
    · simp [alistSet, alistGet, hp, ih k k2 v h]

theorem processDataFile_not_local (env : Env) (st : LoopState)
    (df : DataFile) (hl : env.isLocalFile (filePathOf env df) = false) :
    processDataFile env st df = st := by
  simp [processDataFile, hl]

theorem processDataFile_match (env : Env) (st : LoopState) (df : DataFile)
    (ef : RemoteFile) (hl : env.isLocalFile (filePathOf env df) = true)
    (hf : filesByName env.remoteFiles (basename (filePathOf env df))
      = some ef)
    (hh : fileHash env df = ef.computed_md5) :
    processDataFile env st df =
      { st with
        files_in_article :=
          alistSet st.files_in_article df.name (entryWithUrl env df ef.fid) }
      := by
  simp [processDataFile, entryWithUrl, hl, hf, hh]

theorem processDataFile_upload_some (env : Env) (st : LoopState)
    (df : DataFile) (ef : RemoteFile)
    (hl : env.isLocalFile (filePathOf env df) = true)
    (hf : filesByName env.remoteFiles (basename (filePathOf env df))
      = some ef)
    (hh : fileHash env df ≠ ef.computed_md5) :
    processDataFile env st df
      = uploadBranch env st df (filePathOf env df) (entryWithHash env df) := by
  simp [processDataFile, hl, hf, hh]

theorem processDataFile_upload_none (env : Env) (st : LoopState)
    (df : DataFile) (hl : env.isLocalFile (filePathOf env df) = true)
    (hf : filesByName env.remoteFiles (basename (filePathOf env df))
      = none) :
    processDataFile env st df
      = uploadBranch env st df (filePathOf env df) (entryWithHash env df) := by
  simp [processDataFile, hl, hf]

theorem processDataFile_uploads (env : Env) (st : LoopState)
    (df : DataFile) :
    (processDataFile env st df).uploads
      = if willUpload env df then st.uploads ++ [filePathOf env df]
        else st.uploads := by
  cases hl : env.isLocalFile (filePathOf env df) with
  | false =>
    rw [processDataFile_not_local env st df hl]
    simp [willUpload, hl]
  | true =>
    cases hf : filesByName env.remoteFiles (basename (filePathOf env df))
      with
    | none =>
      rw [processDataFile_upload_none env st df hl hf]
      simp [uploadBranch, willUpload, hl, hf]
    | some ef =>
      by_cases hh : fileHash env df = ef.computed_md5
      · rw [processDataFile_match env st df ef hl hf hh]
        simp [willUpload, hl, hf, hh]
      · rw [processDataFile_upload_some env st df ef hl hf hh]
        simp [uploadBranch, willUpload, hl, hf, hh]

theorem processDataFile_files_other (env : Env) (st : LoopState)
    (df : DataFile) {k : String} (hk : df.name ≠ k) :
    alistGet (processDataFile env st df).files_in_article k
      = alistGet st.files_in_article k := by
  cases hl : env.isLocalFile (filePathOf env df) with
  | false => rw [processDataFile_not_local env st df hl]
  | true =>
    cases hf : filesByName env.remoteFiles (basename (filePathOf env df))
      with
    | none =>
      rw [processDataFile_upload_none env st df hl hf]
      simp [uploadBranch, alistGet_alistSet_other _ _ _ _ hk]
    | some ef =>
      by_cases hh : fileHash env df = ef.computed_md5
      · rw [processDataFile_match env st df ef hl hf hh]
        simp [alistGet_alistSet_other _ _ _ _ hk]
      · rw [processDataFile_upload_some env st df ef hl hf hh]
        simp [uploadBranch, alistGet_alistSet_other _ _ _ _ hk]

theorem processDataFile_entry_match (env : Env) (st : LoopState)
    (df : DataFile) (ef : RemoteFile)
    (hl : env.isLocalFile (filePathOf env df) = true)
    (hf : filesByName env.remoteFiles (basename (filePathOf env df))
      = some ef)
    (hh : fileHash env df = ef.computed_md5) :
    alistGet (processDataFile env st df).files_in_article df.name
      = some (entryWithUrl env df ef.fid) := by
  rw [processDataFile_match env st df ef hl hf hh]
  exact alistGet_alistSet_self _ _ _

theorem foldl_uploads (env : Env) (l : List DataFile) :
    ∀ st : LoopState, (List.foldl (processDataFile env) st l).uploads
      = st.uploads ++ (l.filter (willUpload env)).map (filePathOf env) := by
  induction l with
  | nil => intro st; simp
  | cons df rest ih =>
    intro st
    rw [List.foldl_cons, ih, processDataFile_uploads]
    by_cases h : willUpload env df <;> simp [h, List.filter_cons]

theorem foldl_files_other (env : Env) (l : List DataFile) :
    ∀ (st : LoopState) (k : String), (∀ df ∈ l, df.name ≠ k) →
      alistGet (List.foldl (processDataFile env) st l).files_in_article k
        = alistGet st.files_in_article k := by
  induction l with
  | nil => intro st k _; rfl
  | cons df rest ih =>
    intro st k h
    rw [List.foldl_cons,
      ih _ k fun q hq => h q (List.mem_cons_of_mem df hq),
      processDataFile_files_other env st df (h df (List.mem_cons_self df rest))]

theorem foldl_entry_match (env : Env) (l : List DataFile) :
    ∀ (st : LoopState) (df : DataFile) (ef : RemoteFile), df ∈ l →
      (l.map DataFile.name).Nodup →
      env.isLocalFile (filePathOf env df) = true →
      filesByName env.remoteFiles (basename (filePathOf env df)) = some ef →
      fileHash env df = ef.computed_md5 →
      alistGet (List.foldl (processDataFile env) st l).files_in_article
          df.name
        = some (entryWithUrl env df ef.fid) := by
  induction l with
  | nil => intro st df ef h; exact absurd h (List.not_mem_nil df)
  | cons q rest ih =>
    intro st df ef hmem hnodup hl hf hh
    rw [List.map_cons, List.nodup_cons] at hnodup
    rcases List.mem_cons.mp hmem with rfl | hr
    · rw [List.foldl_cons, foldl_files_other env rest _ df.name
        fun p hp he => hnodup.1 (he ▸ List.mem_map_of_mem DataFile.name hp)]
      exact processDataFile_entry_match env st df ef hl hf hh
    · rw [List.foldl_cons]
      exact ih _ df ef hr hnodup.2 hl hf hh

theorem foldl_entry_not_local (env : Env) (l : List DataFile) :
    ∀ (st : LoopState) (df : DataFile), df ∈ l →
      (l.map DataFile.name).Nodup →
      env.isLocalFile (filePathOf env df) = false →
      alistGet (List.foldl (processDataFile env) st l).files_in_article
          df.name
        = alistGet st.files_in_article df.name := by
  induction l with
  | nil => intro st df h; exact absurd h (List.not_mem_nil df)
  | cons q rest ih =>
    intro st df hmem hnodup hl
    rw [List.map_cons, List.nodup_cons] at hnodup
    rcases List.mem_cons.mp hmem with rfl | hr
    · rw [List.foldl_cons, foldl_files_other env rest _ df.name
        fun p hp he => hnodup.1 (he ▸ List.mem_map_of_mem DataFile.name hp),
        processDataFile_not_local env st df hl]
    · have hq : q.name ≠ df.name := fun he =>
        hnodup.1 (he ▸ List.mem_map_of_mem DataFile.name hr)
      rw [List.foldl_cons, ih _ df hr hnodup.2 hl,
        processDataFile_files_other env st q hq]

theorem filePathOf_inj (env : Env) {a b : DataFile}
    (h : filePathOf env a = filePathOf env b) : a.rel_path = b.rel_path := by
  have hd := congrArg String.data h
  simp only [filePathOf, String.data_append, List.append_assoc] at hd
  exact String.ext (List.append_cancel_left (List.append_cancel_left hd))

theorem mem_uploads_iff (env : Env) (dataFiles : List DataFile)
    (hpaths : (dataFiles.map DataFile.rel_path).Nodup) {df : DataFile}
    (hmem : df ∈ dataFiles) :
    filePathOf env df ∈ (uploadAll env dataFiles).uploads
      ↔ willUpload env df = true := by
  unfold uploadAll
  rw [foldl_uploads]
  simp only [List.nil_append]
  constructor
  · intro h
    obtain ⟨q, hq, hpath⟩ := List.mem_map.mp h
    have hqmem : q ∈ dataFiles := List.mem_of_mem_filter hq
    have hrel : q.rel_path = df.rel_path := filePathOf_inj env hpath
    have hqd : q = df :=
      List.inj_on_of_nodup_map hpaths hqmem hmem hrel
    rw [← hqd]
    exact List.of_mem_filter hq
  · intro h
    exact List.mem_map_of_mem _ (List.mem_filter.mpr ⟨hmem, h⟩)

/-- C6: in the upload loop of main, a data file whose basename already
exists in the Figshare article with an MD5 equal to the file's recorded
or computed MD5 is not re-uploaded and its registry entry records the
existing remote file's download url; a file is passed to upload_file only
when it exists locally and is absent from the article or differs in MD5;
and a file missing on the local filesystem is skipped entirely: nothing
is uploaded for it and its registry entry stays exactly the loaded YAML
entry. -/
theorem figshare_upload_spec (env : Env) (dataFiles : List DataFile)
    (hnames : (dataFiles.map DataFile.name).Nodup)
    (hpaths : (dataFiles.map DataFile.rel_path).Nodup) :
    (∀ df ∈ dataFiles, ∀ ef : RemoteFile,
      env.isLocalFile (filePathOf env df) = true →
      filesByName env.remoteFiles (basename (filePathOf env df)) = some ef →
      fileHash env df = ef.computed_md5 →
      filePathOf env df ∉ (uploadAll env dataFiles).uploads ∧
      ∃ fd, alistGet (uploadAll env dataFiles).files_in_article df.name
          = some fd ∧
        fd.url = some (downloadUrlBase ++ "/" ++ toString ef.fid)) ∧
    (∀ df ∈ dataFiles,
      filePathOf env df ∈ (uploadAll env dataFiles).uploads →
      env.isLocalFile (filePathOf env df) = true ∧
      (filesByName env.remoteFiles (basename (filePathOf env df)) = none ∨
        ∃ ef, filesByName env.remoteFiles (basename (filePathOf env df))
            = some ef ∧
          fileHash env df ≠ ef.computed_md5)) ∧
    (∀ df ∈ dataFiles, env.isLocalFile (filePathOf env df) = false →
      filePathOf env df ∉ (uploadAll env dataFiles).uploads ∧
      alistGet (uploadAll env dataFiles).files_in_article df.name
        = alistGet env.existingData df.name) := by
  refine ⟨?_, ?_, ?_⟩
  · intro df hmem ef hl hf hh
    constructor
    · rw [mem_uploads_iff env dataFiles hpaths hmem]
      simp [willUpload, hl, hf, hh]
    · exact ⟨_, foldl_entry_match env dataFiles _ df ef hmem hnames hl hf hh,
        rfl⟩
  · intro df hmem hup
    have hw : willUpload env df = true :=
      (mem_uploads_iff env dataFiles hpaths hmem).mp hup
    unfold willUpload at hw
    rw [Bool.and_eq_true] at hw
    refine ⟨hw.1, ?_⟩
    cases hf : filesByName env.remoteFiles (basename (filePathOf env df))
      with
    | none => exact Or.inl rfl
    | some ef =>
      right
      refine ⟨ef, rfl, ?_⟩
      have hbne := hw.2
      rw [hf] at hbne
      simpa using hbne
  · intro df hmem hl
    constructor
    · rw [mem_uploads_iff env dataFiles hpaths hmem]
      simp [willUpload, hl]
    · exact foldl_entry_not_local env dataFiles _ df hmem hnames hl

/-- Witness for C6: a single data file whose hash matches the article. -/
theorem figshare_upload_spec_witness :
    filePathOf demoEnv ⟨"wbm_summary", "f1.json"⟩
      ∉ (uploadAll demoEnv demoDataFiles).uploads ∧
    ∃ fd, alistGet (uploadAll demoEnv demoDataFiles).files_in_article
        "wbm_summary" = some fd ∧
      fd.url = some (downloadUrlBase ++ "/" ++ toString (11 : ℕ)) := by
  obtain ⟨h1, h2, h3⟩ := figshare_upload_spec demoEnv demoDataFiles
    (by decide) (by decide)
  exact h1 ⟨"wbm_summary", "f1.json"⟩ (by decide)
    ⟨"f1.json", 11, "abc123"⟩ rfl rfl rfl

end Figshare
